import Mathlib

/-!
Verification development for the DynamicCompletions completion-aggregation
pipeline.  The definitions below are a shallow embedding of the two source
files `Commands.py` and `__init__.py`: pure fragments become Lean functions,
the mutable loader/view state becomes explicit state passing, Python sets
become `Finset String`, Python exceptions become `Except PyErr`, and the
results queue becomes an explicit list of queued items.
-/

namespace DynamicCompletions

/-! ## Python string ordering

Completion items are Python strings; `list.sort()` orders them
lexicographically by code point, which is exactly lexicographic order on
`String.data`.  We define that order directly so that it evaluates by
`decide`. -/

/-- Lexicographic comparison of character lists, matching Python string
comparison by code point. -/
def lexLe : List Char → List Char → Bool
  | [], _ => true
  | _ :: _, [] => false
  | a :: as, b :: bs => if a < b then true else if b < a then false else lexLe as bs

/-- Python string order used by `completions.sort()`. -/
def pyLe (a b : String) : Bool := lexLe a.data b.data

/-- Propositional form of `pyLe`, for use with `List.insertionSort` and
`Finset.sort`. -/
def PyLe (a b : String) : Prop := pyLe a b = true

instance : DecidableRel PyLe := fun a b => instDecidableEqBool (pyLe a b) true

theorem lexLe_total : ∀ x y : List Char, lexLe x y = true ∨ lexLe y x = true := by
  intro x
  induction x with
  | nil => intro y; left; rfl
  | cons a as ih =>
    intro y
    cases y with
    | nil => right; rfl
    | cons b bs =>
      rcases lt_trichotomy a b with hab | hab | hab
      · left; simp [lexLe, hab]
      · subst hab
        rcases ih bs with h | h
        · left; simp [lexLe, lt_irrefl, h]
        · right; simp [lexLe, lt_irrefl, h]
      · right; simp [lexLe, hab]

theorem lexLe_trans : ∀ x y z : List Char,
    lexLe x y = true → lexLe y z = true → lexLe x z = true := by
  intro x
  induction x with
  | nil => intro y z _ _; rfl
  | cons a as ih =>
    intro y z hxy hyz
    cases y with
    | nil => simp [lexLe] at hxy
    | cons b bs =>
      cases z with
      | nil => simp [lexLe] at hyz
      | cons c cs =>
        simp only [lexLe] at hxy hyz ⊢
        by_cases hab : a < b
        · by_cases hbc : b < c
          · simp [lt_trans hab hbc]
          · by_cases hcb : c < b
            · simp [lexLe, hbc, hcb] at hyz
            · have hbceq : b = c := le_antisymm (not_lt.mp hcb) (not_lt.mp hbc)
              subst hbceq
              simp [hab]
        · by_cases hba : b < a
          · simp [hab, hba] at hxy
          · have habeq : a = b := le_antisymm (not_lt.mp hba) (not_lt.mp hab)
            subst habeq
            rw [if_neg hab, if_neg hba] at hxy
            by_cases hac : a < c
            · simp [hac]
            · rw [if_neg hac] at hyz ⊢
              by_cases hca : c < a
              · rw [if_pos hca] at hyz
                exact absurd hyz (by simp)
              · rw [if_neg hca] at hyz ⊢
                exact ih bs cs hxy hyz

theorem lexLe_antisymm : ∀ x y : List Char,
    lexLe x y = true → lexLe y x = true → x = y := by
  intro x
  induction x with
  | nil =>
    intro y _ hyx
    cases y with
    | nil => rfl
    | cons b bs => simp [lexLe] at hyx
  | cons a as ih =>
    intro y hxy hyx
    cases y with
    | nil => simp [lexLe] at hxy
    | cons b bs =>
      simp only [lexLe] at hxy hyx
      by_cases hab : a < b
      · simp [hab, lt_asymm hab] at hyx
      · by_cases hba : b < a
        · simp [hab, hba] at hxy
        · have habeq : a = b := le_antisymm (not_lt.mp hba) (not_lt.mp hab)
          subst habeq
          simp only [lt_irrefl, if_false] at hxy hyx
          rw [ih bs hxy hyx]

instance : IsTotal String PyLe := ⟨fun a b => lexLe_total a.data b.data⟩

instance : IsTrans String PyLe :=
  ⟨fun a b c hab hbc => lexLe_trans a.data b.data c.data hab hbc⟩

instance : IsAntisymm String PyLe := by
  refine ⟨fun a b hab hba => ?_⟩
  have h := lexLe_antisymm a.data b.data hab hba
  cases a with
  | mk da =>
    cases b with
    | mk db => exact congrArg String.mk h

instance : IsRefl String PyLe := by
  refine ⟨fun a => ?_⟩
  rcases lexLe_total a.data a.data with h | h <;> exact h

/-- The in-place `completions.sort()` of `get_completions_from_queue`
(Commands.py line 152): ascending Python string order. -/
def sortPy (xs : List String) : List String := List.insertionSort PyLe xs

theorem sortPy_sorted (xs : List String) : List.Sorted PyLe (sortPy xs) :=
  List.sorted_insertionSort PyLe xs

theorem sortPy_perm (xs : List String) : (sortPy xs).Perm xs :=
  List.perm_insertionSort PyLe xs

theorem sortPy_eq_of_perm {xs ys : List String} (h : xs.Perm ys) : sortPy xs = sortPy ys :=
  List.eq_of_perm_of_sorted ((sortPy_perm xs).trans (h.trans (sortPy_perm ys).symm))
    (sortPy_sorted xs) (sortPy_sorted ys)

/-- Deterministic iteration order for a Python set of strings.  The real
iteration order is unspecified; every consumer in the pipeline either takes a
set again or sorts the final list, so fixing the sorted order is
observationally faithful. -/
def setToList (s : Finset String) : List String :=
  Quot.lift sortPy (fun _ _ h => sortPy_eq_of_perm h) s.val

theorem setToList_perm (s : Finset String) : (setToList s : Multiset String) = s.val := by
  rcases s with ⟨m, hm⟩
  induction m using Quotient.inductionOn with
  | h xs => exact Quot.sound (sortPy_perm xs)

theorem mem_setToList (s : Finset String) (a : String) : a ∈ setToList s ↔ a ∈ s := by
  have h : a ∈ (setToList s : Multiset String) ↔ a ∈ s.val := by rw [setToList_perm]
  simpa using h

/-- Decidable equality for `Except`, used to evaluate the embedded
exception-returning functions on concrete inputs. -/
def exceptDecEq {ε : Type u} {α : Type v} [DecidableEq ε] [DecidableEq α] :
    DecidableEq (Except ε α)
  | .error e, .error f =>
      if h : e = f then .isTrue (by rw [h])
      else .isFalse (by intro hh; cases hh; exact h rfl)
  | .error _, .ok _ => .isFalse (by intro hh; cases hh)
  | .ok _, .error _ => .isFalse (by intro hh; cases hh)
  | .ok a, .ok b =>
      if h : a = b then .isTrue (by rw [h])
      else .isFalse (by intro hh; cases hh; exact h rfl)

instance {ε : Type u} {α : Type v} [DecidableEq ε] [DecidableEq α] :
    DecidableEq (Except ε α) := exceptDecEq

/-! ## External host constants

`sublime.INHIBIT_WORD_COMPLETIONS` and `sublime.INHIBIT_EXPLICIT_COMPLETIONS`
are constants of the Sublime Text host API (values 8 and 16); the core only
ORs them together. -/

def INHIBIT_WORD_COMPLETIONS : Nat := 8

def INHIBIT_EXPLICIT_COMPLETIONS : Nat := 16

/-! ## Loader caches and `filter_completions` -/

/-- `self.completions` is either a dict mapping a category to a collection of
items, or a flat iterable of items (`__init__.py`, docstring of
`filter_completions`). -/
inductive Cache where
  | dict (entries : List (String × List String))
  | flat (items : List String)
deriving DecidableEq

/-- Python truthiness of `self.completions` (`if self.completions`): a dict or
collection is truthy iff non-empty. -/
def cacheTruthy : Cache → Bool
  | .dict es => !es.isEmpty
  | .flat xs => !xs.isEmpty

/-- Dict lookup `self.completions[t]`; `none` models the `KeyError` branch. -/
def lookupCat : List (String × List String) → String → Option (List String)
  | [], _ => none
  | (k, v) :: rest, t => if k = t then some v else lookupCat rest t

/-- `CompletionLoader.filter_completions` (`__init__.py` lines 298-326):
for a dict cache, union the entries of the requested categories (a missing
category is logged and skipped); for a flat cache, return everything.  Always
pairs the result with the two inhibit flags. -/
def filter_completions (cache : Cache) (ctypes : Finset String) : Finset String × Nat :=
  match cache with
  | .dict es =>
      (ctypes.biUnion (fun t => ((lookupCat es t).getD []).toFinset),
       INHIBIT_WORD_COMPLETIONS ||| INHIBIT_EXPLICIT_COMPLETIONS)
  | .flat xs =>
      (xs.toFinset, INHIBIT_WORD_COMPLETIONS ||| INHIBIT_EXPLICIT_COMPLETIONS)

/-- The categories passed to `logger.warning` by `filter_completions`: the
requested categories that hit the `KeyError` branch of a dict cache. -/
def filter_completions_warnings (cache : Cache) (ctypes : Finset String) : Finset String :=
  match cache with
  | .dict es => ctypes.filter (fun t => lookupCat es t = none)
  | .flat _ => ∅

/-! ## The results queue and `get_completions_from_queue` -/

/-- An item on the completion queue: either a bare iterable of completions or
a tuple whose first element is the collection and whose optional second
element is a flag bitmask.  `tup xs none` is a 1-tuple: reading `c[1]` raises
`IndexError`, which the merger swallows. -/
inductive QItem where
  | coll (xs : List String)
  | tup (xs : List String) (flags : Option Nat)
deriving DecidableEq

/-- `CompletionLoader.EmptyReturn = ([],)`: the placeholder put on the queue
by a loader that is still loading. -/
def EmptyReturn : QItem := .tup [] none

/-- The elements `completions.extend(...)` receives from a queue item. -/
def itemElems : QItem → List String
  | .coll xs => xs
  | .tup xs _ => xs

/-- The flag bits `flags = flags | c[1]` receives from a queue item: a bare
collection touches no flags, and a 1-tuple's `IndexError` is swallowed. -/
def itemFlags : QItem → Nat
  | .tup _ (some f) => f
  | _ => 0

/-- `DynamicCompletionsCommand.get_completions_from_queue` (Commands.py lines
130-153): drain the queue, OR the flags, extend the list, sort at the end. -/
def get_completions_from_queue (items : List QItem) : List String × Nat :=
  let acc := items.foldl (fun acc c => (acc.1 ++ itemElems c, acc.2 ||| itemFlags c)) ([], 0)
  (sortPy acc.1, acc.2)

/-! ## Loader state machine (`CompletionLoader.get_completions`) -/

/-- The staleness policy implemented by each variant's
`refresh_completions`: the base class and `StaticLoader` never refresh,
`ViewLoader` always refreshes, `FileLoader` compares file modification
times. -/
inductive RefreshPolicy where
  | never
  | always
  | fileMtime
deriving DecidableEq

/-- The mutable per-instance state of a `CompletionLoader`, together with the
per-type attributes consulted by `get_completions`.  `hasThread` models
`self.loader_thread is not None`; `lastModifiedTime` is `FileLoader`'s
`self.last_modified_time` (unused by the other variants). -/
structure LoaderState where
  caps : Finset String
  loadAsync : Bool
  policy : RefreshPolicy
  completions : Cache
  loading : Bool
  hasThread : Bool
  lastModifiedTime : Int
deriving DecidableEq

/-- The environment one `get_completions` call observes: the backing file's
current mtime (`os.path.getmtime`), the liveness answer of
`loader_thread.is_alive()`, and the cache `load_completions` would leave in
`self.completions` if it ran. -/
structure LoadEnv where
  mtime : Int
  threadAlive : Bool
  loadResult : Cache
deriving DecidableEq

/-- `refresh_completions` of the concrete variants: the base default returns
`False` (`__init__.py` lines 289-291), `ViewLoader` returns `True` (lines
407-409), and `FileLoader` (lines 437-443) returns `False` when the current
mtime is not newer, else records the new mtime and returns `True`. -/
def refresh_completions (l : LoaderState) (env : LoadEnv) : Bool × LoaderState :=
  match l.policy with
  | .never => (false, l)
  | .always => (true, l)
  | .fileMtime =>
      if env.mtime ≤ l.lastModifiedTime then (false, l)
      else (true, { l with lastModifiedTime := env.mtime })

/-- What one `get_completions` call did: the updated loader state, the items
it put on the completion queue, whether `load_completions` ran inline in the
calling thread, and whether a loader thread was started. -/
structure GCResult where
  state : LoaderState
  queued : List QItem
  loadInvoked : Bool
  threadStarted : Bool
deriving DecidableEq

/-- `completion_queue.put(self.filter_completions(included_completions))`:
the filtered set is iterated by `extend` in unspecified order; we fix the
sorted order (see `setToList`). -/
def putFiltered (l : LoaderState) (included : Finset String) : QItem :=
  let fr := filter_completions l.completions included
  .tup (setToList fr.1) (some fr.2)

/-- `CompletionLoader.get_completions` (`__init__.py` lines 226-287).
Steps, in source order: intersect the requested categories with the
loader's capabilities and return early when empty; clear a truthy cache
whose `refresh_completions` reports stale; when neither loading nor loaded,
either start a loader thread (async and not waiting) or run
`load_completions` inline; finally put either the placeholder, the
finalized filtered result, or the cached filtered result on the queue.

In the spawn branch the worker runs `load_completions` concurrently; if it
has already exited by the time `loader_thread.is_alive()` is checked below,
its write to `self.completions` has landed, which the model reflects by
installing `env.loadResult` in that case. -/
def get_completions (l : LoaderState) (ctypes : Finset String) (wait : Bool)
    (env : LoadEnv) : GCResult :=
  let included := ctypes ∩ l.caps
  if included = ∅ then ⟨l, [], false, false⟩
  else
    let pr := if cacheTruthy l.completions then refresh_completions l env else (false, l)
    let l2 := if pr.1 then { pr.2 with completions := Cache.flat [] } else pr.2
    let step :=
      if !l2.loading && !cacheTruthy l2.completions then
        if l2.loadAsync && !wait then
          let afterSpawn := if env.threadAlive then l2.completions else env.loadResult
          ({ l2 with loading := true, hasThread := true, completions := afterSpawn }, false, true)
        else
          ({ l2 with completions := env.loadResult }, true, false)
      else (l2, false, false)
    let l3 := step.1
    if l3.loading then
      if !l3.hasThread || env.threadAlive then
        ⟨l3, [EmptyReturn], step.2.1, step.2.2⟩
      else
        ⟨{ l3 with loading := false, hasThread := false },
         [putFiltered l3 included], step.2.1, step.2.2⟩
    else
      ⟨l3, [putFiltered l3 included], step.2.1, step.2.2⟩

/-! ## Dispatcher (`DynamicCompletionsCommand.add_completions_to_queue`) -/

/-- The `process_completers` inner function of `add_completions_to_queue`
(Commands.py lines 78-107): drain a queue of loaders in order, calling
`get_completions` on each and collecting what it put on the completion
queue.  Each loader is paired with the environment its call observes. -/
def process_completers (cs : List (LoaderState × LoadEnv)) (ctypes : Finset String) :
    List QItem × List LoaderState :=
  match cs with
  | [] => ([], [])
  | c :: rest =>
      let r := get_completions c.1 ctypes false c.2
      let rr := process_completers rest ctypes
      (r.queued ++ rr.1, r.state :: rr.2)

/-- Value semantics of `add_completions_to_queue` (Commands.py lines 59-128):
partition the loaders by `LoadAsync`, drain the asynchronous group, process
the synchronous group, and hand back the queue contents after
`async_loaders.join()` returns.  Each loader is processed exactly once; the
model fixes the sequential async-then-sync interleaving of queue puts, which
is immaterial to the merge (see the merge-commutativity theorem). -/
def add_completions_to_queue (loaders : List (LoaderState × LoadEnv))
    (ctypes : Finset String) : List QItem × List LoaderState :=
  let asyncs := loaders.filter (fun c => c.1.loadAsync)
  let syncs := loaders.filter (fun c => !c.1.loadAsync)
  let ra := process_completers asyncs ctypes
  let rs := process_completers syncs ctypes
  (ra.1 ++ rs.1, ra.2 ++ rs.2)

/-- Control-flow events of one dispatch, in program order. -/
inductive DispatchStep where
  | spawnWorkerThread
  | drainAsyncInline
  | runSyncLoaders
  | joinAsyncQueue
  | mergeFromQueue
deriving DecidableEq

/-- The control flow of Commands.py lines 109-128 plus the merge call at line
48, as a function of the number of asynchronous loaders collected: more than
3 starts two worker threads (`for i in range(2)`), otherwise the async queue
is drained inline; then the synchronous loaders run, `async_loaders.join()`
waits for the queue to drain, and only then is the completion queue merged. -/
def dispatch_trace (asyncCount : Nat) : List DispatchStep :=
  (if asyncCount > 3 then [.spawnWorkerThread, .spawnWorkerThread]
   else [.drainAsyncInline])
  ++ [.runSyncLoaders, .joinAsyncQueue, .mergeFromQueue]

/-! ## Triggers (`CompletionTrigger`) -/

/-- Python exception classes relevant to the embedded code paths. -/
inductive PyErr where
  | nameError
  | valueError
  | keyError
  | typeError
  | otherError
deriving DecidableEq

/-- One registered trigger instance, with its externally supplied behaviour:
`scoreSelector` is the host's `view.score_selector` oracle,
`selectionScope` is the outcome of calling the abstract `selection_scope()`,
and `selectionCheck` is the abstract `selection_check(prefix, locs)`.  The
`Except` results model that plugin-defined methods may raise. -/
structure Trigger where
  scoreSelector : Int → String → Int
  selectionScope : Except PyErr String
  selectionCheck : String → List Int → Except PyErr (List String)

/-- `CompletionTrigger.selection_scope_check` (`__init__.py` lines 70-80).
For empty `locs` the comprehension is empty, so `selection_scope()` is never
called, `max([])` raises `ValueError`, and the fallback
`self.view.score_selector(l[0], self.selection_scope)` reads the unbound
comprehension variable `l` and raises `NameError`.  A `ValueError` raised by
`selection_scope()` itself is caught by the same handler and likewise ends
in `NameError`; other exceptions propagate. -/
def selection_scope_check (t : Trigger) (locs : List Int) : Except PyErr Int :=
  match locs with
  | [] => .error .nameError
  | x :: xs =>
      match t.selectionScope with
      | .ok scope =>
          .ok ((xs.map (fun l => t.scoreSelector l scope)).foldl max (t.scoreSelector x scope))
      | .error .valueError => .error .nameError
      | .error e => .error e

/-- `CompletionTrigger.view_scope_check` (`__init__.py` lines 46-53): the
maximum oracle score over the selection's region starts; for an empty
selection, `max([])` raises `ValueError` and the handler re-scores
position 0. -/
def view_scope_check (scoreSelector : Int → String → Int) (selBegins : List Int)
    (scope : String) : Int :=
  match selBegins with
  | [] => scoreSelector 0 scope
  | x :: xs => (xs.map (fun s => scoreSelector s scope)).foldl max (scoreSelector x scope)

/-- `CompletionTrigger.get_completion_types` (`__init__.py` lines 97-104):
for each trigger of the view, in order, union in `selection_check` when the
selection scope check is positive.  There is no exception handling in this
loop, so a raising trigger aborts it. -/
def get_completion_types (triggers : List Trigger) (pfx : String) (locs : List Int) :
    Except PyErr (Finset String) :=
  match triggers with
  | [] => .ok ∅
  | t :: rest =>
      match selection_scope_check t locs with
      | .error e => .error e
      | .ok s =>
          if s > 0 then
            match t.selectionCheck pfx locs with
            | .error e => .error e
            | .ok cats =>
                match get_completion_types rest pfx locs with
                | .error e => .error e
                | .ok acc => .ok (cats.toFinset ∪ acc)
          else get_completion_types rest pfx locs

/-! ## The aggregation request (`DynamicCompletionsCommand.on_query_completions`) -/

/-- `on_query_completions` (Commands.py lines 19-57): compute the completion
types, return `None` when there are none; collect the loaders, return `None`
when there are none; otherwise fill the completion queue and merge it.  The
before/after-load callback registries are external side-effecting hooks with
no influence on the return value (both lists are empty by default). -/
def on_query_completions (triggers : List Trigger)
    (loaders : List (LoaderState × LoadEnv)) (pfx : String) (locs : List Int) :
    Except PyErr (Option (List String × Nat)) :=
  match get_completion_types triggers pfx locs with
  | .error e => .error e
  | .ok ctypes =>
      if ctypes = ∅ then .ok none
      else if loaders.isEmpty then .ok none
      else .ok (some (get_completions_from_queue (add_completions_to_queue loaders ctypes).1))

/-! ## Per-document trigger cache (`ViewData`) -/

/-- The fields of a `ViewData` entry consulted by `get_triggers_for_view`:
the stored primary scope, the stored hash of the registered trigger types,
and the cached trigger list (triggers are opaque here). -/
structure VData where
  scope : String
  triggersHash : Int
  triggers : List Nat
deriving DecidableEq

/-- `ViewData.update_triggers` (`__init__.py` lines 547-549): store the
current registry hash and the recomputed trigger list. -/
def update_triggers (currentHash : Int) (recomputed : List Nat) (d : VData) : VData :=
  { d with triggersHash := currentHash, triggers := recomputed }

/-- `ViewData.get_triggers_for_view` (`__init__.py` lines 511-527) for a view
with an existing cache entry `d`: when the current primary scope or the
current registry hash differs from the stored one, store the new scope and
recompute via `update_triggers`; otherwise return the cached list. -/
def get_triggers_for_view (d : VData) (currentScope : String) (currentHash : Int)
    (recomputed : List Nat) : VData × List Nat :=
  if d.scope ≠ currentScope ∨ d.triggersHash ≠ currentHash then
    let d2 := update_triggers currentHash recomputed { d with scope := currentScope }
    (d2, d2.triggers)
  else (d, d.triggers)

/-! ## Concrete instances used to evaluate the claims -/

/-- A trigger applicable exactly at position 10, yielding category "func". -/
def trigT : Trigger :=
  ⟨fun l _ => if l = 10 then 1 else 0, .ok "source.lang", fun _ _ => .ok ["func"]⟩

/-- A static synchronous loader for "func" whose cache holds the set
containing "a" and "b". -/
def loaderS1 : LoaderState :=
  ⟨{"func"}, false, .never, .flat ["b", "a"], false, false, 0⟩

def envS1 : LoadEnv := ⟨0, false, .flat []⟩

/-- A file-bound synchronous loader for "func" whose cache holds the set
containing "c", last loaded at mtime 5. -/
def loaderF1 : LoaderState :=
  ⟨{"func"}, false, .fileMtime, .flat ["c"], false, false, 5⟩

/-- The unchanged backing file: current mtime equals the recorded mtime. -/
def envF1 : LoadEnv := ⟨5, false, .flat []⟩

/-- A loader with capabilities A and B and a dict cache mapping A to x and
B to y. -/
def loaderAB : LoaderState :=
  ⟨{"A", "B"}, false, .never, .dict [("A", ["x"]), ("B", ["y"])], false, false, 0⟩

/-- An asynchronous loader observed mid-load: loading flag set, loader
thread present. -/
def loadingLoader : LoaderState := ⟨{"func"}, true, .never, .flat [], true, true, 0⟩

/-- A trigger whose `selection_check` raises. -/
def badTrigger : Trigger := ⟨fun _ _ => 1, .ok "s", fun _ _ => .error .typeError⟩

/-- A trigger whose `selection_check` returns the category "x". -/
def goodTrigger : Trigger := ⟨fun _ _ => 1, .ok "s", fun _ _ => .ok ["x"]⟩

/-! ## Merge lemmas -/

/-- The OR of the flags contributed by the queue items. -/
def orFlags (items : List QItem) : Nat :=
  items.foldr (fun c a => itemFlags c ||| a) 0

theorem merge_foldl_eq (items : List QItem) :
    ∀ a b, items.foldl (fun acc c => (acc.1 ++ itemElems c, acc.2 ||| itemFlags c)) (a, b)
      = (a ++ (items.map itemElems).flatten, b ||| orFlags items) := by
  induction items with
  | nil => intro a b; simp [orFlags]
  | cons c rest ih =>
    intro a b
    rw [List.foldl_cons, ih]
    simp [orFlags, List.append_assoc, Nat.lor_assoc]

theorem merge_eq (items : List QItem) :
    get_completions_from_queue items
      = (sortPy ((items.map itemElems).flatten), orFlags items) := by
  unfold get_completions_from_queue
  rw [merge_foldl_eq items [] 0]
  simp

theorem orFlags_perm {xs ys : List QItem} (h : xs.Perm ys) : orFlags xs = orFlags ys := by
  induction h with
  | nil => rfl
  | cons c _ ih => simp [orFlags, List.foldr_cons] at ih ⊢; rw [ih]
  | swap c d rest =>
    simp only [orFlags, List.foldr_cons]
    rw [← Nat.lor_assoc, ← Nat.lor_assoc, Nat.lor_comm (itemFlags d) (itemFlags c)]
  | trans _ _ ih1 ih2 => exact ih1.trans ih2

theorem orFlags_append (xs ys : List QItem) :
    orFlags (xs ++ ys) = orFlags xs ||| orFlags ys := by
  induction xs with
  | nil => simp [orFlags]
  | cons c rest ih => simp [orFlags, List.foldr_cons] at ih ⊢; rw [ih, Nat.lor_assoc]

/-- Claim C5: draining the results queue is invariant under permuting the
contributions: the merged pair is the same for every order, the returned
flags are the OR of the contributed flags, the returned list is sorted, and
an empty queue yields the empty list with flags 0. -/
theorem merge_commutes_and_sorts :
    (∀ xs ys : List QItem, xs.Perm ys →
        get_completions_from_queue xs = get_completions_from_queue ys)
  ∧ (∀ xs : List QItem,
        (get_completions_from_queue xs).2 = xs.foldr (fun c a => itemFlags c ||| a) 0
        ∧ List.Sorted PyLe (get_completions_from_queue xs).1)
  ∧ get_completions_from_queue [] = ([], 0) := by
  refine ⟨fun xs ys h => ?_, fun xs => ?_, by decide⟩
  · rw [merge_eq, merge_eq, orFlags_perm h,
      sortPy_eq_of_perm ((h.map itemElems).flatten)]
  · rw [merge_eq]
    exact ⟨rfl, sortPy_sorted _⟩

/-- Witness for C5 at a concrete permutation of two contributions. -/
theorem merge_commutes_and_sorts_witness :
    get_completions_from_queue [EmptyReturn, QItem.tup ["b"] (some 1)]
      = get_completions_from_queue [QItem.tup ["b"] (some 1), EmptyReturn] :=
  merge_commutes_and_sorts.1 _ _ (by decide)

/-- Claim C2: with at most 3 asynchronous loaders the dispatcher drains them
inline and spawns no worker thread; with 4 or more it starts exactly 2 worker
threads; in either case the asynchronous queue is joined before the
completion queue is merged. -/
theorem dispatch_fanout_threshold (n : Nat) :
    (n ≤ 3 → (dispatch_trace n).count DispatchStep.spawnWorkerThread = 0
        ∧ DispatchStep.drainAsyncInline ∈ dispatch_trace n)
  ∧ (4 ≤ n → (dispatch_trace n).count DispatchStep.spawnWorkerThread = 2
        ∧ DispatchStep.drainAsyncInline ∉ dispatch_trace n)
  ∧ ∃ pre, dispatch_trace n
      = pre ++ [DispatchStep.joinAsyncQueue, DispatchStep.mergeFromQueue] := by
  by_cases h : n > 3
  · have e : dispatch_trace n
        = [DispatchStep.spawnWorkerThread, DispatchStep.spawnWorkerThread,
           DispatchStep.runSyncLoaders, DispatchStep.joinAsyncQueue,
           DispatchStep.mergeFromQueue] := by
      simp [dispatch_trace, h]
    refine ⟨fun hle => absurd h (by omega), fun _ => ?_, ?_⟩
    · rw [e]; exact ⟨by decide, by decide⟩
    · exact ⟨[DispatchStep.spawnWorkerThread, DispatchStep.spawnWorkerThread,
        DispatchStep.runSyncLoaders], by rw [e]; rfl⟩
  · have e : dispatch_trace n
        = [DispatchStep.drainAsyncInline, DispatchStep.runSyncLoaders,
           DispatchStep.joinAsyncQueue, DispatchStep.mergeFromQueue] := by
      simp [dispatch_trace, h]
    refine ⟨fun _ => ?_, fun hge => absurd hge (by omega), ?_⟩
    · rw [e]; exact ⟨by decide, by decide⟩
    · exact ⟨[DispatchStep.drainAsyncInline, DispatchStep.runSyncLoaders], by rw [e]; rfl⟩

/-- Witness for C2 at 3 and 4 asynchronous loaders. -/
theorem dispatch_fanout_threshold_witness :
    (dispatch_trace 3).count DispatchStep.spawnWorkerThread = 0
  ∧ (dispatch_trace 4).count DispatchStep.spawnWorkerThread = 2 :=
  ⟨((dispatch_fanout_threshold 3).1 (by decide)).1,
   ((dispatch_fanout_threshold 4).2.1 (by decide)).1⟩

/-- Claim C8: a request whose categories do not intersect the loader's
capabilities returns before touching anything: nothing is queued, no load
runs, no thread starts, and the loader state (cache, loading flag, thread,
recorded mtime) is returned unchanged. -/
theorem out_of_capability_noop (l : LoaderState) (ctypes : Finset String)
    (wait : Bool) (env : LoadEnv) (h : ctypes ∩ l.caps = ∅) :
    get_completions l ctypes wait env = ⟨l, [], false, false⟩ := by
  unfold get_completions
  rw [if_pos h]

/-- Witness for C8: a request for a category outside `loaderS1`'s
capabilities. -/
theorem out_of_capability_noop_witness :
    get_completions loaderS1 {"zzz"} false envS1 = ⟨loaderS1, [], false, false⟩ :=
  out_of_capability_noop loaderS1 {"zzz"} false envS1 (by decide)

/-- Claim C9: with an existing cache entry, `get_triggers_for_view` returns
the cached trigger list unchanged when both the current scope and the
current registry hash match the stored values, and stores the new scope and
hash and recomputes the list whenever either differs. -/
theorem trigger_cache_invalidation (d : VData) (currentScope : String)
    (currentHash : Int) (recomputed : List Nat) :
    (d.scope = currentScope ∧ d.triggersHash = currentHash →
        get_triggers_for_view d currentScope currentHash recomputed = (d, d.triggers))
  ∧ (d.scope ≠ currentScope ∨ d.triggersHash ≠ currentHash →
        get_triggers_for_view d currentScope currentHash recomputed
          = (⟨currentScope, currentHash, recomputed⟩, recomputed)) := by
  constructor
  · intro h
    unfold get_triggers_for_view
    rw [if_neg]
    push_neg
    exact h
  · intro h
    unfold get_triggers_for_view
    rw [if_pos h]
    rfl

/-- Witness for C9: one cache hit and one scope-change recompute. -/
theorem trigger_cache_invalidation_witness :
    get_triggers_for_view ⟨"source.a", 7, [1, 2]⟩ "source.a" 7 [3] = (⟨"source.a", 7, [1, 2]⟩, [1, 2])
  ∧ get_triggers_for_view ⟨"source.a", 7, [1, 2]⟩ "source.b" 7 [3] = (⟨"source.b", 7, [3]⟩, [3]) :=
  ⟨(trigger_cache_invalidation ⟨"source.a", 7, [1, 2]⟩ "source.a" 7 [3]).1 ⟨rfl, rfl⟩,
   (trigger_cache_invalidation ⟨"source.a", 7, [1, 2]⟩ "source.b" 7 [3]).2 (by simp)⟩

/-- Claim C3: the loader with capabilities {A,B} and dict cache {A:[x],B:[y]}
asked for {A,C} contributes exactly {x}; in general a requested category
missing from a dict cache is logged and skipped (the filter is total and the
missing categories are exactly the warned ones), and a flat cache is
returned in full regardless of the requested categories. -/
theorem category_filtering :
    (get_completions loaderAB {"A", "C"} false ⟨0, false, Cache.flat []⟩).queued
      = [QItem.tup ["x"] (some (INHIBIT_WORD_COMPLETIONS ||| INHIBIT_EXPLICIT_COMPLETIONS))]
  ∧ (∀ (es : List (String × List String)) (ctypes : Finset String) (x : String),
        x ∈ (filter_completions (.dict es) ctypes).1
          ↔ ∃ t ∈ ctypes, ∃ v, lookupCat es t = some v ∧ x ∈ v)
  ∧ (∀ (es : List (String × List String)) (ctypes : Finset String) (t : String),
        t ∈ filter_completions_warnings (.dict es) ctypes
          ↔ t ∈ ctypes ∧ lookupCat es t = none)
  ∧ ∀ (xs : List String) (ctypes : Finset String),
      filter_completions (.flat xs) ctypes
        = (xs.toFinset, INHIBIT_WORD_COMPLETIONS ||| INHIBIT_EXPLICIT_COMPLETIONS) := by
  refine ⟨by decide, fun es ctypes x => ?_, fun es ctypes t => ?_, fun xs ctypes => rfl⟩
  · simp only [filter_completions, Finset.mem_biUnion, List.mem_toFinset]
    constructor
    · rintro ⟨t, ht, hx⟩
      cases hl : lookupCat es t with
      | none => rw [hl] at hx; simp at hx
      | some v => exact ⟨t, ht, v, hl, by rwa [hl] at hx⟩
    · rintro ⟨t, ht, v, hl, hx⟩
      refine ⟨t, ht, ?_⟩
      rw [hl]
      exact hx
  · simp [filter_completions_warnings, Finset.mem_filter]

/-- Claim C4: a file-bound loader with a non-empty cache, not already
loading, handling an in-capability request, re-runs `load_completions`
(inline or on a fresh loader thread) exactly when the backing file's mtime is
strictly newer than the recorded one; when the mtime is not newer the state
is untouched and the cached completions are filtered onto the queue. -/
theorem file_staleness (l : LoaderState) (ctypes : Finset String) (env : LoadEnv)
    (hp : l.policy = RefreshPolicy.fileMtime) (hc : cacheTruthy l.completions = true)
    (hl : l.loading = false) (hi : ¬ctypes ∩ l.caps = ∅) :
    ((get_completions l ctypes false env).loadInvoked
        || (get_completions l ctypes false env).threadStarted)
      = decide (l.lastModifiedTime < env.mtime)
  ∧ (env.mtime ≤ l.lastModifiedTime →
      (get_completions l ctypes false env).state = l
      ∧ (get_completions l ctypes false env).queued = [putFiltered l (ctypes ∩ l.caps)]) := by
  by_cases hm : env.mtime ≤ l.lastModifiedTime
  · have hr : refresh_completions l env = (false, l) := by
      unfold refresh_completions
      rw [hp, if_pos hm]
    have he : get_completions l ctypes false env
        = ⟨l, [putFiltered l (ctypes ∩ l.caps)], false, false⟩ := by
      unfold get_completions
      rw [if_neg hi]
      simp [hc, hr, hl]
    rw [he]
    exact ⟨by simp [not_lt.mpr hm], fun _ => ⟨rfl, rfl⟩⟩
  · have hlt : l.lastModifiedTime < env.mtime := not_le.mp hm
    have hr : refresh_completions l env
        = (true, { l with lastModifiedTime := env.mtime }) := by
      unfold refresh_completions
      rw [hp, if_neg hm]
    refine ⟨?_, fun hcon => absurd hcon hm⟩
    have hflat : cacheTruthy (Cache.flat []) = false := rfl
    unfold get_completions
    rw [if_neg hi]
    cases ha : l.loadAsync with
    | true =>
        cases hta : env.threadAlive with
        | true => simp [hc, hr, hl, ha, hta, hlt, hflat]
        | false => simp [hc, hr, hl, ha, hta, hlt, hflat]
    | false => simp [hc, hr, hl, ha, hlt, hflat]

/-- Witness for C4: the unchanged file of `loaderF1` (cached state and queue
output), plus the strictly-newer-mtime side re-running the load. -/
theorem file_staleness_witness :
    ((get_completions loaderF1 {"func"} false envF1).state = loaderF1
      ∧ (get_completions loaderF1 {"func"} false envF1).queued
          = [putFiltered loaderF1 ({"func"} ∩ loaderF1.caps)])
  ∧ ((get_completions loaderF1 {"func"} false ⟨9, false, Cache.flat ["n"]⟩).loadInvoked
      || (get_completions loaderF1 {"func"} false ⟨9, false, Cache.flat ["n"]⟩).threadStarted)
        = decide (loaderF1.lastModifiedTime < (9 : Int)) :=
  ⟨(file_staleness loaderF1 {"func"} envF1 rfl (by decide) rfl (by decide)).2 (by decide),
   (file_staleness loaderF1 {"func"} ⟨9, false, Cache.flat ["n"]⟩ rfl (by decide) rfl
      (by decide)).1⟩

/-- Claim C7: a loader whose loading flag is set and whose loader thread is
still alive only puts the `EmptyReturn` placeholder on the queue — no second
load is started inline or on a thread — and a drained placeholder
contributes no completion items and no flag bits to the merged result. -/
theorem inflight_placeholder (l : LoaderState) (ctypes : Finset String) (wait : Bool)
    (env : LoadEnv) (h1 : l.loading = true) (h2 : l.hasThread = true)
    (h3 : env.threadAlive = true) (h4 : ¬ctypes ∩ l.caps = ∅) :
    ((get_completions l ctypes wait env).queued = [EmptyReturn]
      ∧ (get_completions l ctypes wait env).loadInvoked = false
      ∧ (get_completions l ctypes wait env).threadStarted = false)
  ∧ ∀ xs ys : List QItem,
      get_completions_from_queue (xs ++ EmptyReturn :: ys)
        = get_completions_from_queue (xs ++ ys) := by
  constructor
  · obtain ⟨caps, la, pol, comp, loading, hasT, lmt⟩ := l
    simp only at h1 h2
    subst h1
    subst h2
    unfold get_completions
    rw [if_neg h4]
    cases pol with
    | never => by_cases hcc : cacheTruthy comp = true <;> simp [refresh_completions, h3, hcc]
    | always => by_cases hcc : cacheTruthy comp = true <;> simp [refresh_completions, h3, hcc]
    | fileMtime =>
        by_cases hcc : cacheTruthy comp = true
        · by_cases hm : env.mtime ≤ lmt <;> simp [refresh_completions, hm, h3, hcc]
        · simp [refresh_completions, h3, hcc]
  · intro xs ys
    rw [merge_eq, merge_eq]
    refine Prod.ext ?_ ?_
    · simp [EmptyReturn, itemElems]
    · simp only [orFlags_append]
      simp [orFlags, EmptyReturn, itemFlags]

/-- Witness for C7: a second request against `loadingLoader` mid-load. -/
theorem inflight_placeholder_witness :
    (get_completions loadingLoader {"func"} false ⟨0, true, Cache.flat ["z"]⟩).queued
      = [EmptyReturn] :=
  ((inflight_placeholder loadingLoader {"func"} false ⟨0, true, Cache.flat ["z"]⟩
      rfl rfl rfl (by decide)).1).1

theorem foldl_max_spec (xs : List Int) : ∀ a : Int,
    (List.foldl max a xs = a ∨ List.foldl max a xs ∈ xs)
  ∧ a ≤ List.foldl max a xs
  ∧ ∀ x ∈ xs, x ≤ List.foldl max a xs := by
  induction xs with
  | nil => intro a; exact ⟨Or.inl rfl, le_refl a, by simp⟩
  | cons x xs ih =>
    intro a
    rcases ih (max a x) with ⟨hmem, hle, hall⟩
    refine ⟨?_, ?_, ?_⟩
    · rw [List.foldl_cons]
      rcases hmem with h | h
      · rcases max_choice a x with hc | hc
        · left; rw [h, hc]
        · right; rw [h, hc]; exact List.mem_cons_self x xs
      · right; exact List.mem_cons_of_mem x h
    · rw [List.foldl_cons]
      exact le_trans (le_max_left a x) hle
    · intro y hy
      rw [List.foldl_cons]
      rcases List.mem_cons.mp hy with h | h
      · subst h; exact le_trans (le_max_right a y) hle
      · exact hall y h

/-- Claim C10: for a trigger whose `selection_scope()` returns normally,
`selection_scope_check` on a non-empty position list returns the maximum
oracle score over the positions, while on the empty list the `ValueError`
fallback reads the unbound comprehension variable and the call raises
(`NameError`) rather than scoring position 0. -/
theorem selection_scope_check_spec (t : Trigger) (scope : String)
    (ht : t.selectionScope = Except.ok scope) :
    (∀ locs : List Int, locs ≠ [] →
        ∃ m : Int, selection_scope_check t locs = .ok m
          ∧ (∃ p ∈ locs, m = t.scoreSelector p scope)
          ∧ ∀ p ∈ locs, t.scoreSelector p scope ≤ m)
  ∧ selection_scope_check t [] = .error PyErr.nameError := by
  refine ⟨fun locs hne => ?_, rfl⟩
  cases locs with
  | nil => exact absurd rfl hne
  | cons x xs =>
    refine ⟨(xs.map (fun l => t.scoreSelector l scope)).foldl max (t.scoreSelector x scope),
      ?_, ?_, ?_⟩
    · simp [selection_scope_check, ht]
    · rcases (foldl_max_spec (xs.map (fun l => t.scoreSelector l scope))
          (t.scoreSelector x scope)).1 with h | h
      · exact ⟨x, List.mem_cons_self x xs, h⟩
      · rcases List.mem_map.mp h with ⟨p, hp, he⟩
        exact ⟨p, List.mem_cons_of_mem x hp, he.symm⟩
    · intro p hp
      rcases List.mem_cons.mp hp with h | h
      · subst h
        exact (foldl_max_spec (xs.map (fun l => t.scoreSelector l scope))
          (t.scoreSelector p scope)).2.1
      · exact (foldl_max_spec (xs.map (fun l => t.scoreSelector l scope))
          (t.scoreSelector x scope)).2.2 _ (List.mem_map_of_mem _ h)

/-- Witness for C10 at a concrete trigger and position list. -/
theorem selection_scope_check_spec_witness :
    ∃ m : Int, selection_scope_check goodTrigger [0, 3] = .ok m
      ∧ (∃ p ∈ [(0 : Int), 3], m = goodTrigger.scoreSelector p "s")
      ∧ ∀ p ∈ [(0 : Int), 3], goodTrigger.scoreSelector p "s" ≤ m :=
  (selection_scope_check_spec goodTrigger "s" rfl).1 [0, 3] (by decide)

/-- Claim C6 counterexample: with a trigger whose category enumeration
raises, the whole aggregation request evaluates to that exception rather
than a completion result, even though the other registered trigger alone
would have contributed the category "x". -/
theorem trigger_failure_not_isolated :
    on_query_completions [badTrigger, goodTrigger] [] "" [0] = .error PyErr.typeError
  ∧ get_completion_types [goodTrigger] "" [0] = .ok {"x"} :=
  ⟨by decide, by decide⟩

/-- Claim C6 amended: trigger failures are not isolated.  An exception from a
trigger's selection scope check, or from its category enumeration when its
score is positive, propagates out of `get_completion_types` (and hence out
of the whole request), blocking the remaining triggers; the only handled
failure is the `ValueError` of `max` over an empty selection, whose
view-level fallback re-scores position 0 instead of treating the trigger as
scoring 0. -/
theorem trigger_failure_propagates (t : Trigger) (ts : List Trigger) (pfx : String)
    (locs : List Int) (e : PyErr) :
    (selection_scope_check t locs = .error e →
        get_completion_types (t :: ts) pfx locs = .error e
        ∧ ∀ loaders, on_query_completions (t :: ts) loaders pfx locs = .error e)
  ∧ (∀ s : Int, selection_scope_check t locs = .ok s → 0 < s →
        t.selectionCheck pfx locs = .error e →
        get_completion_types (t :: ts) pfx locs = .error e)
  ∧ ∀ (f : Int → String → Int) (scope : String),
      view_scope_check f [] scope = f 0 scope := by
  refine ⟨fun h => ?_, fun s hs hpos hch => ?_, fun f scope => rfl⟩
  · have hg : get_completion_types (t :: ts) pfx locs = .error e := by
      simp [get_completion_types, h]
    refine ⟨hg, fun loaders => ?_⟩
    simp [on_query_completions, hg]
  · simp [get_completion_types, hs, hpos, hch]

/-- Witness for the amended C6 at the concrete failing trigger. -/
theorem trigger_failure_propagates_witness :
    get_completion_types [badTrigger, goodTrigger] "" [0] = .error PyErr.typeError :=
  (trigger_failure_propagates badTrigger [goodTrigger] "" [0] PyErr.typeError).2.1
    1 rfl (by decide) rfl

/-- Claim C1 counterexample: the end-to-end scenario (one trigger yielding
"func" at position 10, static loader caching {a,b}, file loader caching {c}
over an unchanged file) produces the sorted list but flags 24 — the OR of
the two inhibit bits contributed by `filter_completions` — not 0. -/
theorem end_to_end_flags_not_zero :
    on_query_completions [trigT] [(loaderS1, envS1), (loaderF1, envF1)] "" [10]
      = .ok (some (["a", "b", "c"], 24)) ∧ (24 : Nat) ≠ 0 :=
  ⟨by decide, by decide⟩

/-- Claim C1 amended: the end-to-end scenario returns the sorted list
["a","b","c"] paired with the OR of the host's two inhibit flags (rather
than 0). -/
theorem end_to_end_aggregation :
    on_query_completions [trigT] [(loaderS1, envS1), (loaderF1, envF1)] "" [10]
      = .ok (some (["a", "b", "c"],
          INHIBIT_WORD_COMPLETIONS ||| INHIBIT_EXPLICIT_COMPLETIONS)) := by
  decide

end DynamicCompletions
